import Mathlib

/-!
Verification of the AfterGlow persistence layer (`src-tauri/src/main.rs`).

The filesystem is modeled as explicit state: the data file `tasks.json` is an
optional `FileContent`, and the `backups` directory is a list of named entries
in directory order.  Text-level JSON rendering and parsing (serde_json) is
abstracted by `FileContent`: a file either holds the rendering of a JSON value
or text that is not valid JSON; the struct-level (de)serialization of
`TaskData` derived by serde is embedded as `encodeTaskData` / `decodeTaskData`.
Fault-injection flags in `Env` mirror the fallible calls in the source
(`fs::copy`, `serde_json::to_string_pretty`, `fs::write`,
`fs::read_to_string`, per-file `fs::remove_file`); a failing call leaves the
modeled state unchanged (partial writes are below the model's granularity).
Rust's `str::starts_with` is embedded as a character-sequence test
(`strStartsWith`), and `chrono`'s `Local::now().format("%Y%m%d_%H%M%S")` as a
second-resolution `LocalTime` rendered by `formatTimestamp`.
-/

namespace AfterGlow

/-- serde_json::Value, the untyped JSON container used for task records. -/
inductive Json where
  | null : Json
  | bool (b : Bool) : Json
  | num (n : Int) : Json
  | str (s : String) : Json
  | arr (elems : List Json) : Json
  | obj (fields : List (String × Json)) : Json

/-- struct TaskData { tasks: Vec<serde_json::Value>, labels: Vec<String>,
stakeholders: Vec<String> } -/
structure TaskData where
  tasks : List Json
  labels : List String
  stakeholders : List String

/-- impl Default for TaskData: three empty vectors. -/
def TaskData.default : TaskData := ⟨[], [], []⟩

/-- Derived serde serialization of `TaskData`: a JSON object with the three
fields in declaration order. -/
def encodeTaskData (d : TaskData) : Json :=
  .obj [("tasks", .arr d.tasks),
        ("labels", .arr (d.labels.map .str)),
        ("stakeholders", .arr (d.stakeholders.map .str))]

/-- Field access during serde struct deserialization: exactly one occurrence
of the key is required (missing field and duplicate field are errors). -/
def getField (fields : List (String × Json)) (k : String) : Option Json :=
  match fields.filter (fun p => p.1 == k) with
  | [p] => some p.2
  | _ => none

/-- serde deserialization of the elements of a Vec<String>. -/
def decodeStringList : List Json → Option (List String)
  | [] => some []
  | .str s :: rest => (decodeStringList rest).map (s :: ·)
  | _ => none

/-- serde deserialization of Vec<String>: an array whose elements are all
strings. -/
def decodeStrings : Json → Option (List String)
  | .arr xs => decodeStringList xs
  | _ => none

/-- Derived serde deserialization of `TaskData`: requires a JSON object with
fields tasks (any array), labels and stakeholders (arrays of strings);
unknown extra fields are ignored, as serde does by default. -/
def decodeTaskData (j : Json) : Option TaskData :=
  match j with
  | .obj fields =>
    match getField fields ("tasks"), getField fields ("labels"),
          getField fields ("stakeholders") with
    | some (.arr ts), some lj, some sj =>
      match decodeStrings lj, decodeStrings sj with
      | some ls, some ss => some ⟨ts, ls, ss⟩
      | _, _ => none
    | _, _, _ => none
  | _ => none

/-- The text stored in a file: either the rendering of a JSON value, or text
that is not valid JSON (the text level of serde_json is abstracted here). -/
inductive FileContent where
  | json (j : Json) : FileContent
  | invalid (s : String) : FileContent

/-- serde_json::from_str::<TaskData> on a file's text. -/
def docParse : FileContent → Option TaskData
  | .json j => decodeTaskData j
  | .invalid _ => none

/-- An entry of the backups directory: file name, content, filesystem
modification time. -/
structure BackupEntry where
  name : String
  content : FileContent
  mtime : Nat

/-- The filesystem state owned by this layer: the data file
`<app-data>/tasks.json` and the listing of `<app-data>/backups/`. -/
structure FS where
  dataFile : Option FileContent
  backups : List BackupEntry

/-- A local clock reading at second resolution, as produced by
chrono::Local::now(). -/
structure LocalTime where
  year : Nat
  month : Nat
  day : Nat
  hour : Nat
  minute : Nat
  second : Nat
deriving DecidableEq

def pad2 (n : Nat) : String :=
  if n < 10 then "0" ++ toString n else toString n

def pad4 (n : Nat) : String :=
  if n < 10 then "000" ++ toString n
  else if n < 100 then "00" ++ toString n
  else if n < 1000 then "0" ++ toString n
  else toString n

/-- chrono format string "%Y%m%d_%H%M%S". -/
def formatTimestamp (t : LocalTime) : String :=
  pad4 t.year ++ pad2 t.month ++ pad2 t.day ++ "_" ++
    pad2 t.hour ++ pad2 t.minute ++ pad2 t.second

/-- const MAX_BACKUPS: usize = 5 -/
def MAX_BACKUPS : Nat := 5

/-- The backup naming marker "tasks_backup_" tested by starts_with. -/
def backupMarker : String := "tasks_backup_"

/-- format!("tasks_backup_\x7b\x7d.json", timestamp) -/
def backupName (t : LocalTime) : String :=
  backupMarker ++ formatTimestamp t ++ ".json"

/-- Rust str::starts_with: the pattern is a prefix of the character
sequence. -/
def strStartsWith (s pat : String) : Bool :=
  pat.data.isPrefixOf s.data

/-- The environment of one filesystem operation: the wall clock, the mtime
the filesystem will stamp on a file written now, and fault-injection flags
for each fallible call in the source. -/
structure Env where
  time : LocalTime
  mtime : Nat
  copyFail : Bool
  serializeFail : Bool
  writeFail : Bool
  readFail : Bool
  exportCopyFail : Bool
  removeFail : String → Bool
  ioErr : String

/-- Writing (fs::copy / fs::write) a file into a directory: overwrite the
entry of that name in place, or create a new entry. -/
def writeEntry (dir : List BackupEntry) (n : String) (c : FileContent)
    (m : Nat) : List BackupEntry :=
  if dir.any (fun e => e.name == n) then
    dir.map (fun e => if e.name == n then ⟨n, c, m⟩ else e)
  else dir ++ [⟨n, c, m⟩]

/-- The comparator b_time.cmp(&a_time): a is ordered before b when b's
modification time is at most a's (descending by mtime). -/
def mtimeGe (a b : BackupEntry) : Prop := b.mtime ≤ a.mtime

instance : DecidableRel mtimeGe := fun a b => Nat.decLe b.mtime a.mtime

instance : IsTotal BackupEntry mtimeGe := ⟨fun a b => Nat.le_total b.mtime a.mtime⟩

instance : IsTrans BackupEntry mtimeGe := ⟨fun _ _ _ hab hbc => Nat.le_trans hbc hab⟩

/-- backups.sort_by(|a, b| b_time.cmp(&a_time)): newest first. -/
def sortByMtimeDesc (l : List BackupEntry) : List BackupEntry :=
  l.insertionSort mtimeGe

/-- The names slated for deletion by cleanup_old_backups: among the entries
whose name starts with "tasks_backup_", sorted newest first, everything
beyond the first MAX_BACKUPS. -/
def doomedBackups (dir : List BackupEntry) : List String :=
  ((sortByMtimeDesc (dir.filter
    (fun e => strStartsWith e.name backupMarker))).drop MAX_BACKUPS).map
    (fun e => e.name)

/-- fn cleanup_old_backups: list the directory, keep the entries whose name
starts with "tasks_backup_", sort them newest first, and delete every entry
beyond the first MAX_BACKUPS; a failed delete (removeFail) is swallowed and
the file stays. -/
def cleanup_old_backups (removeFail : String → Bool)
    (dir : List BackupEntry) : List BackupEntry :=
  dir.filter (fun e => !((doomedBackups dir).contains e.name && !removeFail e.name))

/-- fn create_backup: no-op success when no data file exists; otherwise copy
the data file to backups/tasks_backup_<timestamp>.json (propagating copy
failure), then prune old backups. -/
def create_backup (env : Env) (fs : FS) : Except String FS :=
  match fs.dataFile with
  | none => .ok fs
  | some content =>
    if env.copyFail then .error ("Failed to create backup: " ++ env.ioErr)
    else
      let dir := writeEntry fs.backups (backupName env.time) content env.mtime
      .ok { fs with backups := cleanup_old_backups env.removeFail dir }

/-- fn load_tasks: default document when the file is absent; otherwise read
(propagating read failure) and parse (propagating parse failure). -/
def load_tasks (env : Env) (fs : FS) : Except String TaskData :=
  match fs.dataFile with
  | none => .ok TaskData.default
  | some c =>
    if env.readFail then .error ("Failed to read tasks file: " ++ env.ioErr)
    else
      match docParse c with
      | some d => .ok d
      | none => .error ("Failed to parse tasks: " ++ env.ioErr)

/-- fn save_tasks: create a backup first (propagating its failure without
touching the data file), then serialize and write the data file.  The second
component is the filesystem state after the call. -/
def save_tasks (env : Env) (fs : FS) (data : TaskData) :
    Except String Unit × FS :=
  match create_backup env fs with
  | .error e => (.error e, fs)
  | .ok fs1 =>
    if env.serializeFail then
      (.error ("Failed to serialize tasks: " ++ env.ioErr), fs1)
    else if env.writeFail then
      (.error ("Failed to write tasks file: " ++ env.ioErr), fs1)
    else
      (.ok (), { fs1 with dataFile := some (.json (encodeTaskData data)) })

/-- fn export_tasks: error when no data file exists; otherwise copy the data
file's bytes onto the destination (propagating copy failure).  Returns the
result, the (unchanged) filesystem state, and the destination file content
after the call. -/
def export_tasks (env : Env) (fs : FS) (dest : Option FileContent) :
    Except String Unit × FS × Option FileContent :=
  match fs.dataFile with
  | none => (.error ("No data file to export"), fs, dest)
  | some c =>
    if env.exportCopyFail then
      (.error ("Failed to export tasks: " ++ env.ioErr), fs, dest)
    else (.ok (), fs, some c)

/-- Running a sequence of save_tasks calls, threading the filesystem state. -/
def runSaves : List (Env × TaskData) → FS → FS
  | [], fs => fs
  | (env, d) :: rest, fs => runSaves rest (save_tasks env fs d).2

/-- The last n elements of a list. -/
def lastN (n : Nat) (l : List α) : List α := l.drop (l.length - n)

/-! ## Basic lemmas about the serde embedding -/

theorem decodeStrings_encode (ls : List String) :
    decodeStrings (.arr (ls.map .str)) = some ls := by
  induction ls with
  | nil => rfl
  | cons a t ih =>
    have ih' : decodeStringList (t.map Json.str) = some t := ih
    simp [decodeStrings, decodeStringList, ih']

/-- Serializing a TaskData and deserializing it recovers the same value. -/
theorem decode_encode (d : TaskData) :
    decodeTaskData (encodeTaskData d) = some d := by
  simp [decodeTaskData, encodeTaskData, getField, decodeStrings_encode]

theorem strStartsWith_append (p s : String) :
    strStartsWith (p ++ s) p = true := by
  simp [strStartsWith, List.isPrefixOf_iff_prefix]

theorem backupName_matches (t : LocalTime) :
    strStartsWith (backupName t) backupMarker = true := by
  have h : backupName t = backupMarker ++ (formatTimestamp t ++ ".json") := by
    simp [backupName, String.append_assoc]
  rw [h]
  exact strStartsWith_append _ _

/-! ## Lemmas about the backup sort and pruning -/

/-- The mtime-ascending order on directory entries (creation order). -/
def mtimeLt (a b : BackupEntry) : Prop := a.mtime < b.mtime

theorem orderedInsert_append (a : BackupEntry) (l : List BackupEntry)
    (h : ∀ b ∈ l, ¬ mtimeGe a b) : l.orderedInsert mtimeGe a = l ++ [a] := by
  induction l with
  | nil => rfl
  | cons b t ih =>
    have hb : ¬ mtimeGe a b := h b (List.mem_cons_self b t)
    simp only [List.orderedInsert, if_neg hb, List.cons_append]
    rw [ih (fun x hx => h x (List.mem_cons_of_mem b hx))]

/-- Sorting newest-first a directory listing that is in strictly ascending
mtime order reverses it. -/
theorem sortByMtimeDesc_of_ascending (l : List BackupEntry)
    (h : l.Pairwise mtimeLt) : sortByMtimeDesc l = l.reverse := by
  induction l with
  | nil => rfl
  | cons a t ih =>
    have ha : ∀ b ∈ t, mtimeLt a b := (List.pairwise_cons.mp h).1
    have ht : t.Pairwise mtimeLt := (List.pairwise_cons.mp h).2
    show (List.insertionSort mtimeGe t).orderedInsert mtimeGe a = (a :: t).reverse
    have hs : List.insertionSort mtimeGe t = t.reverse := ih ht
    rw [hs, List.reverse_cons]
    refine orderedInsert_append a t.reverse (fun b hb => ?_)
    have hb' : b ∈ t := List.mem_reverse.mp hb
    exact Nat.not_le.mpr (ha b hb')

/-- With unique names and no removal failures, removing by name the entries
listed in the first k positions leaves exactly the suffix from position k. -/
theorem filter_not_in_take (l : List BackupEntry) (k : Nat)
    (hnames : (l.map BackupEntry.name).Nodup) :
    l.filter (fun e => !(((l.take k).map (fun x => x.name)).contains e.name)) =
      l.drop k := by
  induction l generalizing k with
  | nil => simp
  | cons a t ih =>
    match k with
    | 0 => simp
    | k + 1 =>
      have hmc : (a.name :: t.map BackupEntry.name).Nodup := by
        rw [List.map_cons] at hnames
        exact hnames
      have hna : a.name ∉ t.map BackupEntry.name := (List.nodup_cons.mp hmc).1
      have hnt : (t.map BackupEntry.name).Nodup := (List.nodup_cons.mp hmc).2
      simp only [List.take_succ_cons, List.map_cons, List.drop_succ_cons,
        List.filter_cons]
      have hself : (((a.name :: (t.take k).map (fun x => x.name)).contains
          a.name) = true) := by
        simp
      rw [if_neg (by simp [hself])]
      have hcongr : ∀ e ∈ t,
          (!((a.name :: (t.take k).map (fun x => x.name)).contains e.name)) =
          (!(((t.take k).map (fun x => x.name)).contains e.name)) := by
        intro e he
        have hne : e.name ≠ a.name := by
          intro hEq
          exact hna (hEq ▸ List.mem_map_of_mem BackupEntry.name he)
        simp [List.contains_cons, hne]
      rw [List.filter_congr hcongr, ih k hnt]

/-- Pruning a directory listing of matching names in strictly ascending mtime
order, with unique names and no removal failures, keeps exactly the last
MAX_BACKUPS entries. -/
theorem cleanup_asc (l : List BackupEntry)
    (hmatch : ∀ e ∈ l, strStartsWith e.name backupMarker = true)
    (hasc : l.Pairwise mtimeLt)
    (hnames : (l.map BackupEntry.name).Nodup) :
    cleanup_old_backups (fun _ => false) l = lastN MAX_BACKUPS l := by
  have hfilter : l.filter (fun e => strStartsWith e.name backupMarker) = l :=
    List.filter_eq_self.mpr hmatch
  have hdoomed : doomedBackups l =
      ((l.take (l.length - MAX_BACKUPS)).map (fun e => e.name)).reverse := by
    unfold doomedBackups
    rw [hfilter, sortByMtimeDesc_of_ascending l hasc, List.drop_reverse,
      List.map_reverse]
  unfold cleanup_old_backups
  rw [hdoomed]
  have hcongr : ∀ e ∈ l,
      (!((((l.take (l.length - MAX_BACKUPS)).map
          (fun e => e.name)).reverse.contains e.name) &&
        !(fun _ => false) e.name)) =
      (!(((l.take (l.length - MAX_BACKUPS)).map
          (fun x => x.name)).contains e.name)) := by
    intro e _
    simp
  rw [List.filter_congr hcongr]
  exact filter_not_in_take l (l.length - MAX_BACKUPS) hnames

/-! ## The effect of one successful save -/

/-- All fault-injection points of a save succeed. -/
def Env.noFaults (env : Env) : Prop :=
  env.copyFail = false ∧ env.serializeFail = false ∧ env.writeFail = false ∧
    env.removeFail = (fun _ => false)

theorem writeEntry_fresh (dir : List BackupEntry) (n : String)
    (c : FileContent) (m : Nat) (h : ∀ e ∈ dir, e.name ≠ n) :
    writeEntry dir n c m = dir ++ [⟨n, c, m⟩] := by
  have hany : (dir.any (fun e => e.name == n)) = false := by
    rw [List.any_eq_false]
    intro e he
    simpa using h e he
  unfold writeEntry
  rw [hany]
  simp

theorem lastN_of_le (n : Nat) (l : List α) (h : l.length ≤ n) :
    lastN n l = l := by
  unfold lastN
  rw [Nat.sub_eq_zero_of_le h, List.drop_zero]

theorem lastN_length_le (n : Nat) (l : List α) : (lastN n l).length ≤ n := by
  unfold lastN
  rw [List.length_drop]
  omega

theorem lastN_map (f : α → β) (n : Nat) (l : List α) :
    (lastN n l).map f = lastN n (l.map f) := by
  unfold lastN
  rw [List.map_drop, List.length_map]

theorem lastN_sublist (n : Nat) (l : List α) : List.Sublist (lastN n l) l :=
  List.drop_sublist _ _

theorem lastN_absorb (n : Nat) (A B : List α) :
    lastN n (lastN n A ++ B) = lastN n (A ++ B) := by
  by_cases h : A.length ≤ n
  · rw [lastN_of_le n A h]
  · have hn : n ≤ A.length := Nat.le_of_lt (Nat.lt_of_not_le h)
    have hA' : (lastN n A).length = n := by
      unfold lastN
      rw [List.length_drop]
      omega
    show (lastN n A ++ B).drop ((lastN n A ++ B).length - n) =
      (A ++ B).drop ((A ++ B).length - n)
    rw [List.length_append, List.length_append, hA']
    have e1 : n + B.length - n = B.length := by omega
    have e2 : A.length + B.length - n = (A.length - n) + B.length := by omega
    rw [e1, e2]
    have e3 : (A ++ B).drop (A.length - n + B.length) =
        ((A ++ B).drop (A.length - n)).drop B.length := by
      rw [List.drop_drop]
    have e4 : (A ++ B).drop (A.length - n) = A.drop (A.length - n) ++ B :=
      List.drop_append_of_le_length (by omega)
    rw [e3, e4]
    rfl

/-- The backup entry produced by one create_backup copy: the timestamped
name, the data file's content, the filesystem's mtime stamp. -/
def mkBackup (env : Env) (c : FileContent) : BackupEntry :=
  ⟨backupName env.time, c, env.mtime⟩

/-- One save on an existing data file, with all faults off, a backup name not
yet present, and an mtime above everything in the backups directory, writes
the serialized document and leaves as backups the last MAX_BACKUPS of the old
listing extended by the new copy. -/
theorem save_tasks_step (env : Env) (fs : FS) (d : TaskData) (c : FileContent)
    (hc : fs.dataFile = some c)
    (hok : env.noFaults)
    (hfresh : ∀ e ∈ fs.backups, e.name ≠ backupName env.time)
    (hmt : ∀ e ∈ fs.backups, e.mtime < env.mtime)
    (hmatch : ∀ e ∈ fs.backups, strStartsWith e.name backupMarker = true)
    (hasc : fs.backups.Pairwise mtimeLt)
    (hnames : (fs.backups.map BackupEntry.name).Nodup) :
    save_tasks env fs d =
      (.ok (), ⟨some (.json (encodeTaskData d)),
        lastN MAX_BACKUPS (fs.backups ++ [mkBackup env c])⟩) := by
  obtain ⟨hcp, hsz, hwr, hrm⟩ := hok
  have hw : writeEntry fs.backups (backupName env.time) c env.mtime =
      fs.backups ++ [mkBackup env c] :=
    writeEntry_fresh _ _ _ _ hfresh
  have hmatch' : ∀ e ∈ fs.backups ++ [mkBackup env c],
      strStartsWith e.name backupMarker = true := by
    intro e he
    rcases List.mem_append.mp he with h1 | h2
    · exact hmatch e h1
    · rcases List.mem_singleton.mp h2 with rfl
      exact backupName_matches env.time
  have hasc' : List.Pairwise mtimeLt (fs.backups ++ [mkBackup env c]) := by
    rw [List.pairwise_append]
    refine ⟨hasc, List.pairwise_singleton _ _, ?_⟩
    intro a ha b hb
    rcases List.mem_singleton.mp hb with rfl
    exact hmt a ha
  have hnames' : ((fs.backups ++
      [mkBackup env c]).map BackupEntry.name).Nodup := by
    rw [List.map_append, List.nodup_append]
    refine ⟨hnames, List.nodup_singleton _, ?_⟩
    intro a ha hb
    simp only [List.map_cons, List.map_nil, List.mem_singleton] at hb
    rcases List.mem_map.mp ha with ⟨e, he, rfl⟩
    exact hfresh e he hb
  have hclean := cleanup_asc _ hmatch' hasc' hnames'
  simp only [save_tasks, create_backup, hc, hcp, hsz, hwr, hrm, hw,
    Bool.false_eq_true, if_false, hclean]

/-! ## Iterated saves -/

/-- The identity of a backup file: its name and modification time. -/
def entryKey (e : BackupEntry) : String × Nat := (e.name, e.mtime)

/-- The identity of the backup a save step would create. -/
def stepKey (s : Env × TaskData) : String × Nat :=
  (backupName s.1.time, s.1.mtime)

/-- Invariant of iterated saves on an existing data file: the backups
directory always holds exactly the last MAX_BACKUPS copies (by name and
mtime) of the interleaved history, and the data file stays present. -/
theorem runSaves_inv (steps : List (Env × TaskData)) :
    ∀ (fs : FS) (c : FileContent),
    fs.dataFile = some c →
    (∀ e ∈ fs.backups, strStartsWith e.name backupMarker = true) →
    fs.backups.Pairwise mtimeLt →
    (fs.backups.map BackupEntry.name).Nodup →
    fs.backups.length ≤ MAX_BACKUPS →
    (∀ s ∈ steps, s.1.noFaults) →
    (∀ e ∈ fs.backups, ∀ s ∈ steps,
      e.mtime < s.1.mtime ∧ e.name ≠ backupName s.1.time) →
    steps.Pairwise (fun s t => s.1.mtime < t.1.mtime) →
    (steps.map (fun s => backupName s.1.time)).Nodup →
    ((runSaves steps fs).backups.map entryKey =
      lastN MAX_BACKUPS (fs.backups.map entryKey ++ steps.map stepKey)) ∧
    (∃ c', (runSaves steps fs).dataFile = some c') := by
  induction steps with
  | nil =>
    intro fs c hc hmatch hasc hnames hlen hok hcross hsasc hsnames
    refine ⟨?_, ⟨c, hc⟩⟩
    show fs.backups.map entryKey =
      lastN MAX_BACKUPS (fs.backups.map entryKey ++ [])
    rw [List.append_nil, lastN_of_le]
    rw [List.length_map]
    exact hlen
  | cons s rest ih =>
    intro fs c hc hmatch hasc hnames hlen hok hcross hsasc hsnames
    obtain ⟨env, d⟩ := s
    have hshead : (env, d) ∈ (env, d) :: rest := List.mem_cons_self _ _
    have hfresh : ∀ e ∈ fs.backups, e.name ≠ backupName env.time :=
      fun e he => (hcross e he (env, d) hshead).2
    have hmt : ∀ e ∈ fs.backups, e.mtime < env.mtime :=
      fun e he => (hcross e he (env, d) hshead).1
    have hstep := save_tasks_step env fs d c hc (hok _ hshead) hfresh hmt
      hmatch hasc hnames
    have hrun : runSaves ((env, d) :: rest) fs =
        runSaves rest (save_tasks env fs d).2 := rfl
    rw [hrun, hstep]
    set L' := lastN MAX_BACKUPS (fs.backups ++ [mkBackup env c]) with hL'
    have happ_match : ∀ e ∈ fs.backups ++ [mkBackup env c],
        strStartsWith e.name backupMarker = true := by
      intro e he
      rcases List.mem_append.mp he with h1 | h2
      · exact hmatch e h1
      · rcases List.mem_singleton.mp h2 with rfl
        exact backupName_matches env.time
    have happ_asc : List.Pairwise mtimeLt (fs.backups ++ [mkBackup env c]) := by
      rw [List.pairwise_append]
      refine ⟨hasc, List.pairwise_singleton _ _, ?_⟩
      intro a ha b hb
      rcases List.mem_singleton.mp hb with rfl
      exact hmt a ha
    have happ_names : ((fs.backups ++
        [mkBackup env c]).map BackupEntry.name).Nodup := by
      rw [List.map_append, List.nodup_append]
      refine ⟨hnames, List.nodup_singleton _, ?_⟩
      intro a ha hb
      simp only [List.map_cons, List.map_nil, List.mem_singleton] at hb
      rcases List.mem_map.mp ha with ⟨e, he, rfl⟩
      exact hfresh e he hb
    have hmemL' : ∀ e ∈ L', e ∈ fs.backups ++ [mkBackup env c] :=
      fun e he => List.mem_of_mem_drop he
    have hsasc_head : ∀ t ∈ rest, env.mtime < t.1.mtime := by
      intro t ht
      exact (List.pairwise_cons.mp hsasc).1 t ht
    have hsn_head : backupName env.time ∉
        rest.map (fun s => backupName s.1.time) := by
      have := hsnames
      rw [List.map_cons] at this
      exact (List.nodup_cons.mp this).1
    have ihres := ih (FS.mk (some (.json (encodeTaskData d))) L')
      (.json (encodeTaskData d)) rfl
      (fun e he => happ_match e (hmemL' e he))
      (List.Pairwise.sublist (lastN_sublist _ _) happ_asc)
      (List.Nodup.sublist (List.Sublist.map _ (lastN_sublist _ _)) happ_names)
      (lastN_length_le _ _)
      (fun t ht => hok t (List.mem_cons_of_mem _ ht))
      (by
        intro e he t ht
        rcases List.mem_append.mp (hmemL' e he) with h1 | h2
        · exact hcross e h1 t (List.mem_cons_of_mem _ ht)
        · rcases List.mem_singleton.mp h2 with rfl
          refine ⟨hsasc_head t ht, ?_⟩
          intro hEq
          have hEq' : backupName env.time = backupName t.1.time := hEq
          refine hsn_head ?_
          rw [hEq']
          exact List.mem_map_of_mem _ ht)
      ((List.pairwise_cons.mp hsasc).2)
      (by
        have := hsnames
        rw [List.map_cons] at this
        exact (List.nodup_cons.mp this).2)
    refine ⟨?_, ihres.2⟩
    rw [ihres.1]
    have hkeyL' : L'.map entryKey =
        lastN MAX_BACKUPS (fs.backups.map entryKey ++ [stepKey (env, d)]) := by
      rw [hL', lastN_map, List.map_append]
      rfl
    rw [hkeyL', lastN_absorb, List.map_cons]
    rw [← List.append_cons]

/-! ## The retention bound after pruning -/

/-- After a pruning pass in which every delete succeeds, at most MAX_BACKUPS
entries with a matching name remain, whatever the directory held before. -/
theorem cleanup_matching_le (dir : List BackupEntry) :
    ((cleanup_old_backups (fun _ => false) dir).filter
      (fun e => strStartsWith e.name backupMarker)).length ≤ MAX_BACKUPS := by
  unfold cleanup_old_backups
  rw [List.filter_filter]
  have hcomm : ∀ e : BackupEntry,
      (strStartsWith e.name backupMarker &&
        !((doomedBackups dir).contains e.name && !(fun _ => false) e.name)) =
      (!((doomedBackups dir).contains e.name) &&
        strStartsWith e.name backupMarker) := by
    intro e
    cases strStartsWith e.name backupMarker <;>
      cases (doomedBackups dir).contains e.name <;> rfl
  rw [List.filter_congr (fun e _ => hcomm e), ← List.filter_filter]
  have hperm : List.Perm
      ((dir.filter (fun e => strStartsWith e.name backupMarker)).filter
        (fun e => !((doomedBackups dir).contains e.name)))
      ((sortByMtimeDesc (dir.filter
        (fun e => strStartsWith e.name backupMarker))).filter
        (fun e => !((doomedBackups dir).contains e.name))) :=
    (List.perm_insertionSort mtimeGe _).symm.filter _
  rw [hperm.length_eq]
  set sorted := sortByMtimeDesc (dir.filter
    (fun e => strStartsWith e.name backupMarker)) with hsorted
  have hsplit : sorted = sorted.take MAX_BACKUPS ++ sorted.drop MAX_BACKUPS :=
    (List.take_append_drop _ _).symm
  rw [hsplit, List.filter_append]
  have hnil : (sorted.drop MAX_BACKUPS).filter
      (fun e => !((doomedBackups dir).contains e.name)) = [] := by
    rw [List.filter_eq_nil_iff]
    intro e he
    have hmem : e.name ∈ doomedBackups dir := by
      unfold doomedBackups
      rw [← hsorted]
      exact List.mem_map_of_mem _ he
    simp [hmem]
  rw [hnil, List.append_nil]
  calc ((sorted.take MAX_BACKUPS).filter _).length
      ≤ (sorted.take MAX_BACKUPS).length := List.length_filter_le _ _
    _ ≤ MAX_BACKUPS := List.length_take_le _ _

/-- The backups listing after any save is either untouched or the result of
one copy-then-prune pass. -/
theorem save_backups_cases (env : Env) (fs : FS) (d : TaskData) :
    (save_tasks env fs d).2.backups = fs.backups ∨
    ∃ c, fs.dataFile = some c ∧ (save_tasks env fs d).2.backups =
      cleanup_old_backups env.removeFail
        (writeEntry fs.backups (backupName env.time) c env.mtime) := by
  unfold save_tasks create_backup
  cases hdf : fs.dataFile with
  | none =>
    left
    cases hsz : env.serializeFail <;> cases hwr : env.writeFail <;> simp
  | some c =>
    cases hcp : env.copyFail with
    | true => left; simp
    | false =>
      right
      refine ⟨c, rfl, ?_⟩
      cases hsz : env.serializeFail <;> cases hwr : env.writeFail <;> simp

/-- A save with successful deletes keeps the count of matching backups at or
below MAX_BACKUPS. -/
theorem save_matching_le (env : Env) (fs : FS) (d : TaskData)
    (hrm : env.removeFail = (fun _ => false))
    (hle : (fs.backups.filter
      (fun e => strStartsWith e.name backupMarker)).length ≤ MAX_BACKUPS) :
    ((save_tasks env fs d).2.backups.filter
      (fun e => strStartsWith e.name backupMarker)).length ≤ MAX_BACKUPS := by
  rcases save_backups_cases env fs d with h | ⟨c, _, h⟩
  · rw [h]
    exact hle
  · rw [h, hrm]
    exact cleanup_matching_le _

/-- When at most MAX_BACKUPS matching entries are present, pruning deletes
nothing. -/
theorem cleanup_small (rf : String → Bool) (dir : List BackupEntry)
    (h : (dir.filter
      (fun e => strStartsWith e.name backupMarker)).length ≤ MAX_BACKUPS) :
    cleanup_old_backups rf dir = dir := by
  have hd : doomedBackups dir = [] := by
    unfold doomedBackups
    have hlen : (sortByMtimeDesc (dir.filter
        (fun e => strStartsWith e.name backupMarker))).length ≤ MAX_BACKUPS := by
      unfold sortByMtimeDesc
      rw [List.length_insertionSort]
      exact h
    rw [List.drop_eq_nil_of_le hlen, List.map_nil]
  unfold cleanup_old_backups
  rw [hd]
  apply List.filter_eq_self.mpr
  intro e _
  simp

/-- A save finding no data file skips the backup and just writes the
document. -/
theorem save_on_missing (env : Env) (fs : FS) (d : TaskData)
    (hc : fs.dataFile = none)
    (hsz : env.serializeFail = false) (hwr : env.writeFail = false) :
    save_tasks env fs d =
      (.ok (), ⟨some (.json (encodeTaskData d)), fs.backups⟩) := by
  unfold save_tasks create_backup
  rw [hc]
  simp [hsz, hwr]

/-- A fault-free save on an existing data file into a directory that stays
small just appends the new backup. -/
theorem save_small (env : Env) (fs : FS) (d : TaskData) (c : FileContent)
    (hc : fs.dataFile = some c)
    (hok : env.noFaults)
    (hfresh : ∀ e ∈ fs.backups, e.name ≠ backupName env.time)
    (hsmall : ((fs.backups ++ [mkBackup env c]).filter
      (fun e => strStartsWith e.name backupMarker)).length ≤ MAX_BACKUPS) :
    save_tasks env fs d =
      (.ok (), ⟨some (.json (encodeTaskData d)),
        fs.backups ++ [mkBackup env c]⟩) := by
  obtain ⟨hcp, hsz, hwr, _⟩ := hok
  have hw : writeEntry fs.backups (backupName env.time) c env.mtime =
      fs.backups ++ [mkBackup env c] :=
    writeEntry_fresh _ _ _ _ hfresh
  have hclean := cleanup_small env.removeFail _ hsmall
  simp only [save_tasks, create_backup, hc, hcp, hsz, hwr, hw,
    Bool.false_eq_true, if_false, hclean]

/-- A save that reports success has written the serialized document to the
data file. -/
theorem save_ok_dataFile (env : Env) (fs : FS) (d : TaskData)
    (h : (save_tasks env fs d).1 = .ok ()) :
    (save_tasks env fs d).2.dataFile = some (.json (encodeTaskData d)) := by
  unfold save_tasks at h ⊢
  cases hcb : create_backup env fs with
  | error e =>
    rw [hcb] at h
    simp at h
  | ok fs1 =>
    rw [hcb] at h
    cases hsz : env.serializeFail with
    | true => simp [hsz] at h
    | false =>
      cases hwr : env.writeFail with
      | true => simp [hsz, hwr] at h
      | false => simp [hsz, hwr]

/-! ## Exact characterization of the pruned set -/

/-- Number of matching backups strictly newer than a given entry. -/
def newerMatching (dir : List BackupEntry) (e : BackupEntry) : Nat :=
  ((dir.filter (fun x => strStartsWith x.name backupMarker)).filter
    (fun x => e.mtime < x.mtime)).length

/-- In a strictly newest-first list, an element lies beyond position k
exactly when at least k elements are strictly newer. -/
theorem mem_drop_iff_newer (s : List BackupEntry)
    (hs : s.Pairwise (fun a b => b.mtime < a.mtime)) :
    ∀ (k : Nat), ∀ e ∈ s,
      (e ∈ s.drop k ↔ k ≤ (s.filter (fun x => e.mtime < x.mtime)).length) := by
  induction s with
  | nil =>
    intro k e he
    cases he
  | cons a t ih =>
    intro k e he
    have ha : ∀ b ∈ t, b.mtime < a.mtime := (List.pairwise_cons.mp hs).1
    have ht := (List.pairwise_cons.mp hs).2
    rcases List.mem_cons.mp he with rfl | het
    · have hft : (e :: t).filter (fun x => e.mtime < x.mtime) = [] := by
        rw [List.filter_eq_nil_iff]
        intro x hx
        rcases List.mem_cons.mp hx with rfl | hxt
        · simp
        · simp only [decide_eq_true_eq]
          exact Nat.not_lt.mpr (Nat.le_of_lt (ha x hxt))
      rw [hft]
      simp only [List.length_nil, Nat.le_zero]
      match k with
      | 0 => simp
      | k + 1 =>
        simp only [List.drop_succ_cons]
        constructor
        · intro hcontra
          exact absurd (ha e (List.mem_of_mem_drop hcontra)) (Nat.lt_irrefl _)
        · intro hk
          omega
    · have hflt : (a :: t).filter (fun x => e.mtime < x.mtime) =
          a :: t.filter (fun x => e.mtime < x.mtime) := by
        rw [List.filter_cons, if_pos]
        simp only [decide_eq_true_eq]
        exact ha e het
      rw [hflt]
      match k with
      | 0 => simpa using Or.inr het
      | k + 1 =>
        simp only [List.drop_succ_cons, List.length_cons]
        rw [ih ht k e het]
        omega

/-- The sorted listing used by the pruning pass is strictly newest-first when
the matching entries carry pairwise distinct mtimes. -/
theorem sorted_strict (dir : List BackupEntry)
    (hmt : (dir.filter (fun x => strStartsWith x.name backupMarker)).Pairwise
      (fun a b => a.mtime ≠ b.mtime)) :
    (sortByMtimeDesc (dir.filter
      (fun x => strStartsWith x.name backupMarker))).Pairwise
      (fun a b => b.mtime < a.mtime) := by
  have hperm : List.Perm
      (dir.filter (fun x => strStartsWith x.name backupMarker))
      (sortByMtimeDesc (dir.filter
        (fun x => strStartsWith x.name backupMarker))) :=
    (List.perm_insertionSort mtimeGe _).symm
  have hge : (sortByMtimeDesc (dir.filter
      (fun x => strStartsWith x.name backupMarker))).Pairwise mtimeGe :=
    List.sorted_insertionSort mtimeGe _
  have hne : (sortByMtimeDesc (dir.filter
      (fun x => strStartsWith x.name backupMarker))).Pairwise
      (fun a b => a.mtime ≠ b.mtime) :=
    (hperm.pairwise_iff (fun h => h.symm)).mp hmt
  exact (hge.and hne).imp
    (fun h => Nat.lt_of_le_of_ne h.1 (fun hEq => h.2 hEq.symm))

/-- A name is doomed exactly when it belongs to a matching entry with at
least MAX_BACKUPS strictly newer matching entries (unique names, distinct
mtimes among matching entries). -/
theorem mem_doomed_iff (dir : List BackupEntry) (e : BackupEntry)
    (he : e ∈ dir)
    (hnames : (dir.map BackupEntry.name).Nodup)
    (hmt : (dir.filter (fun x => strStartsWith x.name backupMarker)).Pairwise
      (fun a b => a.mtime ≠ b.mtime)) :
    (e.name ∈ doomedBackups dir ↔
      (strStartsWith e.name backupMarker = true ∧
        MAX_BACKUPS ≤ newerMatching dir e)) := by
  have hperm : List.Perm
      (sortByMtimeDesc (dir.filter
        (fun x => strStartsWith x.name backupMarker)))
      (dir.filter (fun x => strStartsWith x.name backupMarker)) :=
    List.perm_insertionSort mtimeGe _
  have hstrict := sorted_strict dir hmt
  have hcount : ((sortByMtimeDesc (dir.filter
        (fun x => strStartsWith x.name backupMarker))).filter
        (fun x => e.mtime < x.mtime)).length = newerMatching dir e := by
    unfold newerMatching
    exact (hperm.filter _).length_eq
  constructor
  · intro hdm
    unfold doomedBackups at hdm
    rcases List.mem_map.mp hdm with ⟨dd, hdd, hname⟩
    have hdds : dd ∈ sortByMtimeDesc (dir.filter
        (fun x => strStartsWith x.name backupMarker)) :=
      List.mem_of_mem_drop hdd
    have hddf : dd ∈ dir.filter (fun x => strStartsWith x.name backupMarker) :=
      hperm.mem_iff.mp hdds
    have hdddir : dd ∈ dir := List.mem_of_mem_filter hddf
    have hddm : strStartsWith dd.name backupMarker = true :=
      (List.mem_filter.mp hddf).2
    have hde : dd = e :=
      List.inj_on_of_nodup_map hnames hdddir he hname
    subst hde
    refine ⟨hddm, ?_⟩
    rw [← hcount]
    exact (mem_drop_iff_newer _ hstrict MAX_BACKUPS dd hdds).mp hdd
  · intro ⟨hm, hn⟩
    have hef : e ∈ dir.filter (fun x => strStartsWith x.name backupMarker) :=
      List.mem_filter.mpr ⟨he, hm⟩
    have hes : e ∈ sortByMtimeDesc (dir.filter
        (fun x => strStartsWith x.name backupMarker)) :=
      hperm.mem_iff.mpr hef
    have hdrop : e ∈ (sortByMtimeDesc (dir.filter
        (fun x => strStartsWith x.name backupMarker))).drop MAX_BACKUPS := by
      rw [mem_drop_iff_newer _ hstrict MAX_BACKUPS e hes, hcount]
      exact hn
    unfold doomedBackups
    exact List.mem_map_of_mem _ hdrop

/-- For an entry of the directory (unique names, distinct mtimes among
matching entries): it survives the pruning pass exactly when its name does
not match, or its deletion failed and was swallowed, or it is among the
MAX_BACKUPS newest matching entries. -/
theorem mem_cleanup_iff (rf : String → Bool) (dir : List BackupEntry)
    (e : BackupEntry) (he : e ∈ dir)
    (hnames : (dir.map BackupEntry.name).Nodup)
    (hmt : (dir.filter (fun x => strStartsWith x.name backupMarker)).Pairwise
      (fun a b => a.mtime ≠ b.mtime)) :
    (e ∈ cleanup_old_backups rf dir ↔
      (strStartsWith e.name backupMarker = false ∨ rf e.name = true ∨
        newerMatching dir e < MAX_BACKUPS)) := by
  unfold cleanup_old_backups
  rw [List.mem_filter]
  have hdm := mem_doomed_iff dir e he hnames hmt
  simp only [he, true_and]
  cases hmm : strStartsWith e.name backupMarker with
  | false =>
    have hnd : e.name ∉ doomedBackups dir := by
      intro hx
      have := (hdm.mp hx).1
      rw [hmm] at this
      cases this
    simp [hnd]
  | true =>
    cases hrf : rf e.name with
    | true => simp [hrf]
    | false =>
      by_cases hnew : MAX_BACKUPS ≤ newerMatching dir e
      · have hd : e.name ∈ doomedBackups dir := hdm.mpr ⟨hmm, hnew⟩
        simp [hd, hrf]
        omega
      · have hnd : e.name ∉ doomedBackups dir := by
          intro hx
          exact hnew (hdm.mp hx).2
        simp [hnd]
        omega

/-- A freshly copied backup that is strictly newer than everything else in
the directory survives the pruning pass. -/
theorem mem_cleanup_newest (dir : List BackupEntry) (x : BackupEntry)
    (hfresh : ∀ e ∈ dir, e.name ≠ x.name)
    (hmt : ∀ e ∈ dir, e.mtime < x.mtime)
    (hnames : (dir.map BackupEntry.name).Nodup) :
    x ∈ cleanup_old_backups (fun _ => false) (dir ++ [x]) := by
  unfold cleanup_old_backups
  apply List.mem_filter.mpr
  refine ⟨List.mem_append_right _ (List.mem_singleton_self x), ?_⟩
  suffices hnd : x.name ∉ doomedBackups (dir ++ [x]) by simp [hnd]
  intro hdm
  unfold doomedBackups at hdm
  rcases List.mem_map.mp hdm with ⟨dd, hdd, hname⟩
  have hperm : List.Perm
      (sortByMtimeDesc ((dir ++ [x]).filter
        (fun e => strStartsWith e.name backupMarker)))
      ((dir ++ [x]).filter (fun e => strStartsWith e.name backupMarker)) :=
    List.perm_insertionSort mtimeGe _
  have hdds : dd ∈ sortByMtimeDesc ((dir ++ [x]).filter
      (fun e => strStartsWith e.name backupMarker)) :=
    List.mem_of_mem_drop hdd
  have hddin : dd ∈ dir ++ [x] :=
    List.mem_of_mem_filter (hperm.mem_iff.mp hdds)
  have hdx : dd = x := by
    rcases List.mem_append.mp hddin with h1 | h2
    · exact absurd hname (hfresh dd h1)
    · exact List.mem_singleton.mp h2
  rw [hdx] at hdd
  have hvnodup : (dir ++ [x]).Nodup := by
    apply List.Nodup.of_map BackupEntry.name
    rw [List.map_append, List.nodup_append]
    refine ⟨hnames, List.nodup_singleton _, ?_⟩
    intro a ha hb
    simp only [List.map_cons, List.map_nil, List.mem_singleton] at hb
    rcases List.mem_map.mp ha with ⟨e, he, rfl⟩
    exact hfresh e he hb
  have hfnodup : ((dir ++ [x]).filter
      (fun e => strStartsWith e.name backupMarker)).Nodup :=
    hvnodup.filter _
  have hsnodup : (sortByMtimeDesc ((dir ++ [x]).filter
      (fun e => strStartsWith e.name backupMarker))).Nodup :=
    hperm.nodup_iff.mpr hfnodup
  have hsplit : sortByMtimeDesc ((dir ++ [x]).filter
        (fun e => strStartsWith e.name backupMarker)) =
      (sortByMtimeDesc ((dir ++ [x]).filter
        (fun e => strStartsWith e.name backupMarker))).take MAX_BACKUPS ++
      (sortByMtimeDesc ((dir ++ [x]).filter
        (fun e => strStartsWith e.name backupMarker))).drop MAX_BACKUPS :=
    (List.take_append_drop _ _).symm
  have hdisj := (List.nodup_append.mp (hsplit ▸ hsnodup)).2.2
  have hlen : MAX_BACKUPS < (sortByMtimeDesc ((dir ++ [x]).filter
      (fun e => strStartsWith e.name backupMarker))).length := by
    by_contra hle
    have hnil : (sortByMtimeDesc ((dir ++ [x]).filter
        (fun e => strStartsWith e.name backupMarker))).drop MAX_BACKUPS = [] :=
      List.drop_eq_nil_of_le (Nat.le_of_not_lt hle)
    rw [hnil] at hdd
    cases hdd
  obtain ⟨y, hy⟩ : ∃ y, y ∈ (sortByMtimeDesc ((dir ++ [x]).filter
      (fun e => strStartsWith e.name backupMarker))).take MAX_BACKUPS := by
    apply List.exists_mem_of_length_pos
    rw [List.length_take]
    have h5 : MAX_BACKUPS = 5 := rfl
    omega
  have hyx : y ≠ x := by
    intro hEq
    exact hdisj (hEq ▸ hy) hdd
  have hyin : y ∈ dir := by
    have hyfl : y ∈ (dir ++ [x]).filter
        (fun e => strStartsWith e.name backupMarker) :=
      hperm.mem_iff.mp (List.mem_of_mem_take hy)
    rcases List.mem_append.mp (List.mem_of_mem_filter hyfl) with h1 | h2
    · exact h1
    · exact absurd (List.mem_singleton.mp h2) hyx
  have hge : mtimeGe y x := by
    have hp : (sortByMtimeDesc ((dir ++ [x]).filter
        (fun e => strStartsWith e.name backupMarker))).Pairwise mtimeGe :=
      List.sorted_insertionSort mtimeGe _
    rw [hsplit] at hp
    exact (List.pairwise_append.mp hp).2.2 y hy x hdd
  exact absurd (hmt y hyin) (Nat.not_lt.mpr hge)

/-- Overwriting the single file of a directory by name (the fs::copy branch
hit on a timestamp collision). -/
theorem writeEntry_single (a : BackupEntry) (n : String) (c : FileContent)
    (m : Nat) (h : a.name = n) : writeEntry [a] n c m = [⟨n, c, m⟩] := by
  simp [writeEntry, h]

/-- A concrete clock reading, for witnesses. -/
def timeAt (s : Nat) : LocalTime := ⟨2024, 5, 6, 7, 8, s⟩

/-- A concrete fault-free environment, for witnesses. -/
def mkEnv (s m : Nat) : Env :=
  ⟨timeAt s, m, false, false, false, false, false, fun _ => false, "io error"⟩

/-! ## The claims -/

/-- Claim C1: save_tasks invokes create_backup first; if it fails, save_tasks
propagates that very error and leaves the filesystem — in particular the data
file — untouched; the write is never attempted. -/
theorem C1_backup_failure_aborts_save (env : Env) (fs : FS) (d : TaskData)
    (e : String) (h : create_backup env fs = .error e) :
    save_tasks env fs d = (.error e, fs) := by
  unfold save_tasks
  rw [h]

/-- Witness for C1 at a concrete failing copy. -/
theorem C1_witness :
    create_backup { mkEnv 0 0 with copyFail := true }
        ⟨some (.json .null), []⟩ =
      .error ("Failed to create backup: " ++ "io error") ∧
    save_tasks { mkEnv 0 0 with copyFail := true }
        ⟨some (.json .null), []⟩ TaskData.default =
      (.error ("Failed to create backup: " ++ "io error"),
        ⟨some (.json .null), []⟩) :=
  ⟨rfl, C1_backup_failure_aborts_save _ _ _ _ rfl⟩

/-- Claim C3: a successful save followed immediately by a load returns a
document deep-equal to the one saved. -/
theorem C3_save_load_roundtrip (env envL : Env) (fs : FS) (d : TaskData)
    (hsave : (save_tasks env fs d).1 = .ok ())
    (hread : envL.readFail = false) :
    load_tasks envL (save_tasks env fs d).2 = .ok d := by
  have hdf := save_ok_dataFile env fs d hsave
  unfold load_tasks
  rw [hdf]
  simp [hread, docParse, decode_encode]

/-- Witness for C3 at a concrete document. -/
theorem C3_witness :
    (save_tasks (mkEnv 0 1) ⟨none, []⟩
        ⟨[.str ("x"), .num 3], ["l1"], ["s1"]⟩).1 = .ok () ∧
    (mkEnv 0 1).readFail = false ∧
    load_tasks (mkEnv 0 1) (save_tasks (mkEnv 0 1) ⟨none, []⟩
        ⟨[.str ("x"), .num 3], ["l1"], ["s1"]⟩).2 =
      .ok ⟨[.str ("x"), .num 3], ["l1"], ["s1"]⟩ :=
  ⟨rfl, rfl, C3_save_load_roundtrip _ _ _ _ rfl rfl⟩

/-- Claim C4: content that does not parse as the document schema makes
load_tasks return a parse error, never a default document. -/
theorem C4_corrupt_data_errors (env : Env) (fs : FS) (c : FileContent)
    (hc : fs.dataFile = some c)
    (hbad : docParse c = none)
    (hread : env.readFail = false) :
    load_tasks env fs = .error ("Failed to parse tasks: " ++ env.ioErr) ∧
      ∀ d : TaskData, load_tasks env fs ≠ .ok d := by
  have hl : load_tasks env fs =
      .error ("Failed to parse tasks: " ++ env.ioErr) := by
    unfold load_tasks
    rw [hc]
    simp [hread, hbad]
  refine ⟨hl, fun d hd => ?_⟩
  rw [hl] at hd
  cases hd

/-- Witness for C4 at a concrete corrupt file. -/
theorem C4_witness :
    docParse (.invalid ("this is not json")) = none ∧
    load_tasks (mkEnv 0 0) ⟨some (.invalid ("this is not json")), []⟩ =
      .error ("Failed to parse tasks: " ++ "io error") :=
  ⟨rfl, (C4_corrupt_data_errors (mkEnv 0 0)
    ⟨some (.invalid ("this is not json")), []⟩
    (.invalid ("this is not json")) rfl rfl rfl).1⟩

/-- Claim C5: with no data file present, load_tasks succeeds with the
empty-default document. -/
theorem C5_missing_file_default (env : Env) (fs : FS)
    (hc : fs.dataFile = none) :
    load_tasks env fs = .ok TaskData.default ∧
      TaskData.default = ⟨[], [], []⟩ := by
  constructor
  · unfold load_tasks
    rw [hc]
  · rfl

/-- Witness for C5 on the fresh filesystem. -/
theorem C5_witness :
    load_tasks (mkEnv 0 0) ⟨none, []⟩ = .ok TaskData.default ∧
      TaskData.default = ⟨[], [], []⟩ :=
  C5_missing_file_default (mkEnv 0 0) ⟨none, []⟩ rfl

/-- Claim C7 (amended): with no data file, export_tasks fails with the error
"No data file to export" and creates nothing at the destination; with a data
file present and the copy succeeding, it copies the bytes over the
destination, leaving the rest of the filesystem (backups included)
untouched. -/
theorem C7_export_behavior (env : Env) (fs : FS) (dest : Option FileContent) :
    (fs.dataFile = none →
      export_tasks env fs dest =
        (.error ("No data file to export"), fs, dest)) ∧
    (∀ c, fs.dataFile = some c → env.exportCopyFail = false →
      export_tasks env fs dest = (.ok (), fs, some c)) := by
  constructor
  · intro h
    unfold export_tasks
    rw [h]
  · intro c h hcf
    unfold export_tasks
    rw [h]
    simp [hcf]

/-- Witness for C7 on both branches. -/
theorem C7_witness :
    export_tasks (mkEnv 0 0) ⟨none, []⟩ none =
      (.error ("No data file to export"), ⟨none, []⟩, none) ∧
    export_tasks (mkEnv 0 0) ⟨some (.json .null), []⟩
        (some (.invalid ("old"))) =
      (.ok (), ⟨some (.json .null), []⟩, some (.json .null)) :=
  ⟨(C7_export_behavior _ _ _).1 rfl,
    (C7_export_behavior _ _ _).2 (.json .null) rfl rfl⟩

/-- Counterexample for C7 as stated: the error string is "No data file to
export", not "no data to export". -/
theorem C7_counterexample :
    (export_tasks (mkEnv 0 0) ⟨none, []⟩ none).1 =
      .error ("No data file to export") ∧
    (export_tasks (mkEnv 0 0) ⟨none, []⟩ none).1 ≠
      .error ("no data to export") := by
  refine ⟨rfl, fun h => ?_⟩
  have hs := Except.error.inj h
  exact absurd hs (by decide)

/-- Claim C6: on a fresh environment the first save succeeds with no backup
taken; saving A, B, C in a row leaves exactly the two backups taken before B
and before C, and load returns C. -/
theorem C6_fresh_environment (e1 e2 e3 el : Env) (A B C : TaskData)
    (h1 : e1.noFaults) (h2 : e2.noFaults) (h3 : e3.noFaults)
    (hl : el.readFail = false)
    (hne : backupName e2.time ≠ backupName e3.time) :
    (save_tasks e1 ⟨none, []⟩ A).1 = .ok () ∧
    (save_tasks e1 ⟨none, []⟩ A).2.backups = [] ∧
    (save_tasks e2 (save_tasks e1 ⟨none, []⟩ A).2 B).1 = .ok () ∧
    (save_tasks e3 (save_tasks e2 (save_tasks e1 ⟨none, []⟩ A).2 B).2 C).1 =
      .ok () ∧
    (save_tasks e3 (save_tasks e2 (save_tasks e1 ⟨none, []⟩ A).2 B).2
        C).2.backups =
      [mkBackup e2 (.json (encodeTaskData A)),
       mkBackup e3 (.json (encodeTaskData B))] ∧
    load_tasks el (save_tasks e3 (save_tasks e2 (save_tasks e1 ⟨none, []⟩ A).2
        B).2 C).2 = .ok C := by
  have hs1 : save_tasks e1 ⟨none, []⟩ A =
      (.ok (), ⟨some (.json (encodeTaskData A)), []⟩) :=
    save_on_missing e1 ⟨none, []⟩ A rfl h1.2.1 h1.2.2.1
  have hs2 : save_tasks e2 (⟨some (.json (encodeTaskData A)), []⟩ : FS) B =
      (.ok (), ⟨some (.json (encodeTaskData B)),
        [mkBackup e2 (.json (encodeTaskData A))]⟩) := by
    have h := save_small e2 ⟨some (.json (encodeTaskData A)), []⟩ B
      (.json (encodeTaskData A)) rfl h2
      (fun e he => absurd he (List.not_mem_nil e))
      (Nat.le_trans (List.length_filter_le _ _) (by simp [MAX_BACKUPS]))
    simpa using h
  have hs3 : save_tasks e3 (⟨some (.json (encodeTaskData B)),
      [mkBackup e2 (.json (encodeTaskData A))]⟩ : FS) C =
      (.ok (), ⟨some (.json (encodeTaskData C)),
        [mkBackup e2 (.json (encodeTaskData A)),
         mkBackup e3 (.json (encodeTaskData B))]⟩) := by
    have h := save_small e3 ⟨some (.json (encodeTaskData B)),
        [mkBackup e2 (.json (encodeTaskData A))]⟩ C
      (.json (encodeTaskData B)) rfl h3
      (by
        intro e he
        rcases List.mem_singleton.mp he with rfl
        exact hne)
      (Nat.le_trans (List.length_filter_le _ _) (by simp [MAX_BACKUPS]))
    simpa using h
  simp [hs1, hs2, hs3, load_tasks, hl, docParse, decode_encode]

/-- Claim C9: two fault-free saves within the same clock second reuse the
same backup path: the second copy overwrites the first backup in place, still
succeeds, and the number of backup entries does not grow. -/
theorem C9_same_second_overwrites (e1 e2 : Env) (c : FileContent)
    (d1 d2 : TaskData)
    (h1 : e1.noFaults) (h2 : e2.noFaults) (ht : e1.time = e2.time) :
    (save_tasks e1 ⟨some c, []⟩ d1).1 = .ok () ∧
    (save_tasks e1 ⟨some c, []⟩ d1).2.backups = [mkBackup e1 c] ∧
    (save_tasks e2 (save_tasks e1 ⟨some c, []⟩ d1).2 d2).1 = .ok () ∧
    (save_tasks e2 (save_tasks e1 ⟨some c, []⟩ d1).2 d2).2.backups =
      [⟨backupName e1.time, .json (encodeTaskData d1), e2.mtime⟩] := by
  have hs1 : save_tasks e1 ⟨some c, []⟩ d1 =
      (.ok (), ⟨some (.json (encodeTaskData d1)), [mkBackup e1 c]⟩) := by
    have h := save_small e1 ⟨some c, []⟩ d1 c rfl h1
      (fun e he => absurd he (List.not_mem_nil e))
      (Nat.le_trans (List.length_filter_le _ _) (by simp [MAX_BACKUPS]))
    simpa using h
  have hs2 : save_tasks e2 (⟨some (.json (encodeTaskData d1)),
      [mkBackup e1 c]⟩ : FS) d2 =
      (.ok (), ⟨some (.json (encodeTaskData d2)),
        [⟨backupName e2.time, .json (encodeTaskData d1), e2.mtime⟩]⟩) := by
    obtain ⟨hcp, hsz, hwr, hrm⟩ := h2
    have hwrE : writeEntry [mkBackup e1 c] (backupName e2.time)
        (.json (encodeTaskData d1)) e2.mtime =
        [⟨backupName e2.time, .json (encodeTaskData d1), e2.mtime⟩] :=
      writeEntry_single _ _ _ _
        (by rw [show (mkBackup e1 c).name = backupName e1.time from rfl, ht])
    have hclean : cleanup_old_backups e2.removeFail
        [⟨backupName e2.time, .json (encodeTaskData d1), e2.mtime⟩] =
        [⟨backupName e2.time, .json (encodeTaskData d1), e2.mtime⟩] :=
      cleanup_small _ _
        (Nat.le_trans (List.length_filter_le _ _) (by simp [MAX_BACKUPS]))
    simp only [save_tasks, create_backup, hcp, hsz, hwr, hwrE, hclean,
      Bool.false_eq_true, if_false]
  rw [ht]
  simp [hs1, hs2]

/-- Claim C10: a save that fails after a successful backup (serialize or
write failure) leaves the fresh backup in place — backup-set state has
changed — while the data file is unchanged. -/
theorem C10_failed_save_keeps_backup (env : Env) (fs : FS) (c : FileContent)
    (d : TaskData)
    (hc : fs.dataFile = some c)
    (hcp : env.copyFail = false)
    (hrm : env.removeFail = (fun _ => false))
    (hfail : env.serializeFail = true ∨ env.writeFail = true)
    (hmt : ∀ e ∈ fs.backups, e.mtime < env.mtime)
    (hfresh : ∀ e ∈ fs.backups, e.name ≠ backupName env.time)
    (hnames : (fs.backups.map BackupEntry.name).Nodup) :
    (∃ msg, (save_tasks env fs d).1 = .error msg) ∧
    mkBackup env c ∈ (save_tasks env fs d).2.backups ∧
    (save_tasks env fs d).2.dataFile = fs.dataFile := by
  have hw : writeEntry fs.backups (backupName env.time) c env.mtime =
      fs.backups ++ [mkBackup env c] := writeEntry_fresh _ _ _ _ hfresh
  have hmem : mkBackup env c ∈ cleanup_old_backups (fun _ => false)
      (fs.backups ++ [mkBackup env c]) :=
    mem_cleanup_newest fs.backups (mkBackup env c) hfresh hmt hnames
  have hcb : create_backup env fs = .ok ⟨fs.dataFile,
      cleanup_old_backups (fun _ => false)
        (fs.backups ++ [mkBackup env c])⟩ := by
    simp only [create_backup, hc, hcp, hrm, hw, Bool.false_eq_true, if_false]
  unfold save_tasks
  rw [hcb]
  cases hsz : env.serializeFail with
  | true =>
    simp only [hsz, if_true]
    exact ⟨⟨_, rfl⟩, hmem, trivial⟩
  | false =>
    have hwr : env.writeFail = true := by
      rcases hfail with h | h
      · rw [hsz] at h
        cases h
      · exact h
    simp only [hsz, hwr, if_true, Bool.false_eq_true, if_false]
    exact ⟨⟨_, rfl⟩, hmem, trivial⟩

/-- Claim C8: after a successful copy (or with nothing to copy) create_backup
always returns success, whatever the pruning or its failures do; and, with
unique names and distinct mtimes, the pruning pass keeps exactly the
non-matching entries, the entries whose deletion failed and was swallowed,
and the MAX_BACKUPS newest matching entries. -/
theorem C8_prune_exactness :
    (∀ (env : Env) (fs : FS), env.copyFail = false →
      ∃ fs', create_backup env fs = .ok fs') ∧
    (∀ (rf : String → Bool) (dir : List BackupEntry) (e : BackupEntry),
      e ∈ dir → (dir.map BackupEntry.name).Nodup →
      (dir.filter (fun x => strStartsWith x.name backupMarker)).Pairwise
        (fun a b => a.mtime ≠ b.mtime) →
      (e ∈ cleanup_old_backups rf dir ↔
        (strStartsWith e.name backupMarker = false ∨ rf e.name = true ∨
          newerMatching dir e < MAX_BACKUPS))) := by
  constructor
  · intro env fs hcp
    unfold create_backup
    cases hdf : fs.dataFile with
    | none => exact ⟨fs, rfl⟩
    | some c =>
      refine ⟨FS.mk fs.dataFile (cleanup_old_backups env.removeFail
        (writeEntry fs.backups (backupName env.time) c env.mtime)), ?_⟩
      simp [hcp]
      exact hdf.symm
  · intro rf dir e he hnames hmt
    exact mem_cleanup_iff rf dir e he hnames hmt

/-- Claim C2: starting from an existing data file and an empty backups
directory, any run of more than MAX_BACKUPS fault-free saves (fresh names,
increasing mtimes) ends with the backups directory holding exactly
MAX_BACKUPS entries, all matching the naming marker, and they are precisely
the MAX_BACKUPS most recently created; moreover any single save with
successful deletes keeps the count of matching backups at or below
MAX_BACKUPS. -/
theorem C2_retention :
    (∀ (steps : List (Env × TaskData)) (c : FileContent),
      MAX_BACKUPS < steps.length →
      (∀ s ∈ steps, s.1.noFaults) →
      steps.Pairwise (fun s t => s.1.mtime < t.1.mtime) →
      (steps.map (fun s => backupName s.1.time)).Nodup →
      (runSaves steps ⟨some c, []⟩).backups.length = MAX_BACKUPS ∧
      (∀ e ∈ (runSaves steps ⟨some c, []⟩).backups,
        strStartsWith e.name backupMarker = true) ∧
      (runSaves steps ⟨some c, []⟩).backups.map entryKey =
        (steps.drop (steps.length - MAX_BACKUPS)).map stepKey) ∧
    (∀ (env : Env) (fs : FS) (d : TaskData),
      env.removeFail = (fun _ => false) →
      (fs.backups.filter
        (fun e => strStartsWith e.name backupMarker)).length ≤ MAX_BACKUPS →
      ((save_tasks env fs d).2.backups.filter
        (fun e => strStartsWith e.name backupMarker)).length ≤ MAX_BACKUPS) := by
  constructor
  · intro steps c hlen hok hsasc hsnames
    have hinv := runSaves_inv steps ⟨some c, []⟩ c rfl
      (fun e he => absurd he (List.not_mem_nil e))
      List.Pairwise.nil
      (by simp)
      (by simp)
      hok
      (fun e he => absurd he (List.not_mem_nil e))
      hsasc hsnames
    have hkeys : (runSaves steps ⟨some c, []⟩).backups.map entryKey =
        (steps.drop (steps.length - MAX_BACKUPS)).map stepKey := by
      rw [hinv.1]
      show lastN MAX_BACKUPS ([] ++ steps.map stepKey) = _
      rw [List.nil_append]
      unfold lastN
      rw [List.length_map, ← List.map_drop]
    have hlen5 : (runSaves steps ⟨some c, []⟩).backups.length = MAX_BACKUPS := by
      have hcl := congrArg List.length hkeys
      rw [List.length_map, List.length_map, List.length_drop] at hcl
      omega
    refine ⟨hlen5, ?_, hkeys⟩
    intro e he
    have hkey : entryKey e ∈
        (steps.drop (steps.length - MAX_BACKUPS)).map stepKey := by
      rw [← hkeys]
      exact List.mem_map_of_mem _ he
    rcases List.mem_map.mp hkey with ⟨s, _, hEq⟩
    have hname : e.name = backupName s.1.time :=
      (congrArg Prod.fst hEq).symm
    rw [hname]
    exact backupName_matches _
  · intro env fs d hrm hle
    exact save_matching_le env fs d hrm hle

/-! ## Concrete instances for the scenario claims -/

def wDocA : TaskData := ⟨[], ["a"], []⟩

def wDocB : TaskData := ⟨[], ["b"], []⟩

def wDocC : TaskData := ⟨[], ["c"], []⟩

/-- Six fault-free save steps with increasing clocks and mtimes. -/
def wSteps : List (Env × TaskData) :=
  [(mkEnv 1 1, wDocA), (mkEnv 2 2, wDocA), (mkEnv 3 3, wDocA),
   (mkEnv 4 4, wDocA), (mkEnv 5 5, wDocA), (mkEnv 6 6, wDocA)]

/-- Witness for C6 on concrete environments and documents. -/
theorem C6_witness :
    (save_tasks (mkEnv 1 1) ⟨none, []⟩ wDocA).1 = .ok () ∧
    (save_tasks (mkEnv 1 1) ⟨none, []⟩ wDocA).2.backups = [] ∧
    (save_tasks (mkEnv 2 2) (save_tasks (mkEnv 1 1) ⟨none, []⟩ wDocA).2
      wDocB).1 = .ok () ∧
    (save_tasks (mkEnv 3 3) (save_tasks (mkEnv 2 2)
      (save_tasks (mkEnv 1 1) ⟨none, []⟩ wDocA).2 wDocB).2 wDocC).1 =
      .ok () ∧
    (save_tasks (mkEnv 3 3) (save_tasks (mkEnv 2 2)
      (save_tasks (mkEnv 1 1) ⟨none, []⟩ wDocA).2 wDocB).2
        wDocC).2.backups =
      [mkBackup (mkEnv 2 2) (.json (encodeTaskData wDocA)),
       mkBackup (mkEnv 3 3) (.json (encodeTaskData wDocB))] ∧
    load_tasks (mkEnv 4 4) (save_tasks (mkEnv 3 3) (save_tasks (mkEnv 2 2)
      (save_tasks (mkEnv 1 1) ⟨none, []⟩ wDocA).2 wDocB).2 wDocC).2 =
      .ok wDocC :=
  C6_fresh_environment (mkEnv 1 1) (mkEnv 2 2) (mkEnv 3 3) (mkEnv 4 4)
    wDocA wDocB wDocC ⟨rfl, rfl, rfl, rfl⟩ ⟨rfl, rfl, rfl, rfl⟩
    ⟨rfl, rfl, rfl, rfl⟩ rfl (by decide)

/-- Witness for C9 with two saves in the same clock second. -/
theorem C9_witness :
    (save_tasks (mkEnv 7 1) ⟨some (.json .null), []⟩ wDocA).1 = .ok () ∧
    (save_tasks (mkEnv 7 1) ⟨some (.json .null), []⟩ wDocA).2.backups =
      [mkBackup (mkEnv 7 1) (.json .null)] ∧
    (save_tasks (mkEnv 7 2) (save_tasks (mkEnv 7 1) ⟨some (.json .null), []⟩
      wDocA).2 wDocB).1 = .ok () ∧
    (save_tasks (mkEnv 7 2) (save_tasks (mkEnv 7 1) ⟨some (.json .null), []⟩
      wDocA).2 wDocB).2.backups =
      [⟨backupName (mkEnv 7 1).time, .json (encodeTaskData wDocA),
        (mkEnv 7 2).mtime⟩] :=
  C9_same_second_overwrites (mkEnv 7 1) (mkEnv 7 2) (.json .null) wDocA
    wDocB ⟨rfl, rfl, rfl, rfl⟩ ⟨rfl, rfl, rfl, rfl⟩ rfl

/-- Witness for C10 with a failing data-file write after a good backup. -/
theorem C10_witness :
    (∃ msg, (save_tasks { mkEnv 9 5 with writeFail := true }
      ⟨some (.json .null), []⟩ wDocA).1 = .error msg) ∧
    mkBackup { mkEnv 9 5 with writeFail := true } (.json .null) ∈
      (save_tasks { mkEnv 9 5 with writeFail := true }
        ⟨some (.json .null), []⟩ wDocA).2.backups ∧
    (save_tasks { mkEnv 9 5 with writeFail := true }
      ⟨some (.json .null), []⟩ wDocA).2.dataFile =
      (⟨some (.json .null), []⟩ : FS).dataFile :=
  C10_failed_save_keeps_backup { mkEnv 9 5 with writeFail := true }
    ⟨some (.json .null), []⟩ (.json .null) wDocA rfl rfl rfl (Or.inr rfl)
    (fun e he => absurd he (List.not_mem_nil e))
    (fun e he => absurd he (List.not_mem_nil e))
    (by simp)

/-- Witness for C8: success of a concrete backup, and the pruning
characterization on a concrete one-entry directory. -/
theorem C8_witness :
    (∃ fs', create_backup (mkEnv 0 0) ⟨none, []⟩ = .ok fs') ∧
    ((⟨"other.txt", .json .null, 0⟩ : BackupEntry) ∈
        cleanup_old_backups (fun _ => false)
          [⟨"other.txt", .json .null, 0⟩] ↔
      (strStartsWith ("other.txt") backupMarker = false ∨
        (fun _ => false) ("other.txt") = true ∨
        newerMatching [⟨"other.txt", .json .null, 0⟩]
          ⟨"other.txt", .json .null, 0⟩ < MAX_BACKUPS)) :=
  ⟨C8_prune_exactness.1 (mkEnv 0 0) ⟨none, []⟩ rfl,
    C8_prune_exactness.2 (fun _ => false) [⟨"other.txt", .json .null, 0⟩]
      ⟨"other.txt", .json .null, 0⟩ (List.mem_singleton_self _)
      (by decide) (by decide)⟩

/-- Witness for C2: six concrete saves leave exactly five backups, and one
concrete save keeps the bound. -/
theorem C2_witness :
    ((runSaves wSteps ⟨some (.json .null), []⟩).backups.length =
        MAX_BACKUPS ∧
      (∀ e ∈ (runSaves wSteps ⟨some (.json .null), []⟩).backups,
        strStartsWith e.name backupMarker = true) ∧
      (runSaves wSteps ⟨some (.json .null), []⟩).backups.map entryKey =
        (wSteps.drop (wSteps.length - MAX_BACKUPS)).map stepKey) ∧
    ((save_tasks (mkEnv 0 0) ⟨some (.json .null), []⟩
        wDocA).2.backups.filter
      (fun e => strStartsWith e.name backupMarker)).length ≤ MAX_BACKUPS :=
  ⟨C2_retention.1 wSteps (.json .null) (by decide)
      (by
        intro s hs
        simp [wSteps] at hs
        rcases hs with rfl | rfl | rfl | rfl | rfl | rfl <;>
          exact ⟨rfl, rfl, rfl, rfl⟩)
      (by decide) (by decide),
    C2_retention.2 (mkEnv 0 0) ⟨some (.json .null), []⟩ wDocA rfl
      (by decide)⟩

end AfterGlow
